import Mathlib

/-!
Shallow embedding of `outreach.py` (DonnyRZ/Email-Blast): a bulk-mail batch
job that reads recipients from an xlsx workbook, builds per-recipient string
contexts, renders templates with safe substitution and sends messages with a
per-recipient retry loop.

Conventions of the embedding:
* Python `str` is `String`; `dict` (insertion-ordered, unique keys) is an
  association list where insertion appends and an update keeps the position.
* Python code that can raise is modelled with `Option` (`none` = exception).
* Floats used only for sleep durations are modelled as `ℚ` (only products and
  comparisons of exact values occur in the claims).
* Character predicates model the ASCII behaviour of the Python originals;
  the workbook data in scope is ASCII.
-/

namespace Outreach

/-- ASCII whitespace stripped by Python `str.strip()` (Unicode space
characters beyond ASCII are not modelled). -/
def isPySpace (c : Char) : Bool :=
  c == ' ' || c == '\t' || c == '\n' || c == '\r' || c == '\x0b' || c == '\x0c'

/-- Drop characters satisfying `p` from both ends of a string, as Python
`str.strip(chars)` does. -/
def stripWhile (p : Char → Bool) (s : String) : String :=
  String.mk (((s.data.dropWhile p).reverse.dropWhile p).reverse)

/-- Python `str.strip()` with no argument: strip whitespace from both ends. -/
def pyStrip (s : String) : String := stripWhile isPySpace s

/-- Python `str.lower()` (ASCII behaviour), character by character. -/
def pyLower (s : String) : String := String.mk (s.data.map Char.toLower)

/-- Python `c in s` membership test for a single character. -/
def pyContains (s : String) (c : Char) : Bool := s.data.contains c

/-- Characters kept by the `slugify` regex class `[a-z0-9]` (the input is
already lowercased when the regex runs). -/
def isSlugChar (c : Char) : Bool := c.isLower || c.isDigit

/-- Model of `re.sub(r"[^a-z0-9]+", "_", ·)`: each maximal run of
non-`[a-z0-9]` characters becomes a single underscore.  The boolean flag
records whether the previous character was part of such a run. -/
def slugRepl : Bool → List Char → List Char
  | _, [] => []
  | inRun, c :: cs =>
    if isSlugChar c then c :: slugRepl false cs
    else if inRun then slugRepl true cs
    else '_' :: slugRepl true cs

/-- `slugify` from `outreach.py`: lowercase, collapse non-alphanumeric runs
to `_`, strip leading/trailing underscores. -/
def slugify (text : String) : String :=
  stripWhile (fun c => c == '_') (String.mk (slugRepl false (pyLower text).data))

/-- A Python dict from strings to strings, as an insertion-ordered
association list with unique keys; `alGet` is `dict.get`. -/
abbrev Row := List (String × String)

/-- Lookup in an association list (first match), i.e. `dict.get(k)`. -/
def alGet (l : List (String × String)) (k : String) : Option String :=
  (l.find? (fun p => p.1 == k)).map (fun p => p.2)

/-- The keys of an association list, in order. -/
def alKeys (l : List (String × String)) : List String := l.map (fun p => p.1)

/-- Python truthiness-based `a or b or ... or ""` over optional strings:
the first value that is neither `None` nor `""`, else `""`. -/
def firstTruthy : List (Option String) → String
  | [] => ""
  | none :: rest => firstTruthy rest
  | some s :: rest => if s == "" then firstTruthy rest else s

/-- The eight fixed semantic entries of `build_context`, in insertion order,
each a stripped first-truthy fallback chain over exact header names. -/
def fixedContext (row : Row) : List (String × String) :=
  [("hospital", pyStrip (firstTruthy [alGet row "Rumah Sakit"])),
   ("province", pyStrip (firstTruthy [alGet row "Provinsi"])),
   ("city", pyStrip (firstTruthy [alGet row "Kab/Kota"])),
   ("address", pyStrip (firstTruthy [alGet row "Alamat (List)", alGet row "Alamat (Profile)"])),
   ("phone", pyStrip (firstTruthy [alGet row "Telepon (List)", alGet row "Telepon (Profile)"])),
   ("owner", pyStrip (firstTruthy [alGet row "Pemilik (List)", alGet row "Kepemilikan"])),
   ("director", pyStrip (firstTruthy [alGet row "Direktur"])),
   ("email", pyStrip (firstTruthy [alGet row "Email Perusahaan"]))]

/-- One step of the slug loop in `build_context`:
`if slug and slug not in context: context[slug] = (value or "").strip()`.
(`(value or "").strip()` equals `pyStrip value` for every string value.) -/
def addSlug (ctx : List (String × String)) (kv : String × String) : List (String × String) :=
  let slug := slugify kv.1
  if slug ≠ "" ∧ slug ∉ alKeys ctx then ctx ++ [(slug, pyStrip kv.2)] else ctx

/-- `build_context` from `outreach.py`. -/
def build_context (row : Row) : List (String × String) :=
  row.foldl addSlug (fixedContext row)

/-- The email string `load_recipients` examines for a row:
`(row.get("Email Perusahaan") or "").strip()`. -/
def rowEmail (row : Row) : String := pyStrip (firstTruthy [alGet row "Email Perusahaan"])

/-- The loop of `load_recipients`, carrying the `seen` set of lowercased
emails. -/
def loadRecAux : List String → List Row → List (List (String × String))
  | _, [] => []
  | seen, row :: rest =>
    let email := rowEmail row
    if email ≠ "" ∧ pyContains email '@' = true then
      if pyLower email ∈ seen then loadRecAux seen rest
      else build_context row :: loadRecAux (pyLower email :: seen) rest
    else loadRecAux seen rest

/-- `load_recipients` from `outreach.py` (the workbook is already parsed to
its row dictionaries). -/
def load_recipients (rows : List Row) : List (List (String × String)) :=
  loadRecAux [] rows

/-! ### Workbook reader: cells, column references, sheet iteration -/

/-- An `<c>` cell element of a worksheet, with the parts `read_cell_value`
and `iter_sheet_rows` inspect: the `r` and `t` attributes, the `<v>` child
(`none` = absent, `some none` = present with no text), the pieces of
`itertext()` of the `<is>` child, and the text of the `<t>` child used by
`findtext` (`some none` = child present with no text, which `findtext`
reports as `""`). -/
structure XCell where
  ref : Option String
  typ : Option String
  v : Option (Option String)
  inl : Option (List String)
  tChild : Option (Option String)
deriving DecidableEq

/-- Digit-string value, little helper for `pyInt?`. -/
def digitsToNat (ds : List Char) : Nat :=
  ds.foldl (fun a c => a * 10 + (c.toNat - 48)) 0

/-- Python `int(s)` on a string: strip whitespace, optional sign, decimal
digits; `none` models the `ValueError` it raises otherwise.  (Python also
accepts underscore digit separators, which never occur in workbook shared
string indices and are not modelled.) -/
def pyInt? (s : String) : Option Int :=
  match (pyStrip s).data with
  | [] => none
  | '+' :: ds => if ds ≠ [] ∧ ds.all Char.isDigit then some (digitsToNat ds : Int) else none
  | '-' :: ds => if ds ≠ [] ∧ ds.all Char.isDigit then some (-(digitsToNat ds : Int)) else none
  | ds => if ds.all Char.isDigit then some (digitsToNat ds : Int) else none

/-- `read_cell_value` from `outreach.py`; `none` models a raised exception
(`int()` failing on the shared-string index). -/
def read_cell_value (cell : XCell) (shared : List String) : Option String :=
  if cell.typ = some "s" then
    match cell.v with
    | some (some txt) =>
      match pyInt? txt with
      | some idx =>
        some (if 0 ≤ idx ∧ idx < (shared.length : Int) then shared.getD idx.toNat "" else "")
      | none => none
    | _ => some ""
  else if cell.typ = some "inlineStr" then
    some (String.join (cell.inl.getD []))
  else if cell.typ = some "b" then
    some (if cell.v = some (some "1") then "TRUE" else "FALSE")
  else
    match cell.v with
    | some (some txt) => some txt
    | _ => some ((cell.tChild.getD none).getD "")

/-- `column_letters_to_index` from `outreach.py`. -/
def column_letters_to_index (letters : String) : Int :=
  (letters.data.foldl (fun idx c => idx * 26 + ((c.toUpper.toNat : Int) - 64)) 0) - 1

/-- `CELL_REF_PATTERN.match(ref)`: the regex `([A-Z]+)(\d+)` anchored at the
start; returns the letters group.  (`\d` is modelled as ASCII digits.) -/
def matchRef (ref : String) : Option String :=
  let letters := ref.data.takeWhile (fun c => c.isUpper)
  let rest := ref.data.dropWhile (fun c => c.isUpper)
  if letters ≠ [] ∧ rest.takeWhile Char.isDigit ≠ [] then some (String.mk letters) else none

/-- Insertion into a Python dict keyed by column index: an existing key has
its value replaced in place, a new key is appended. -/
def pyDictInsert (l : List (Int × String)) (k : Int) (v : String) : List (Int × String) :=
  if l.any (fun p => p.1 == k) then l.map (fun p => if p.1 = k then (k, v) else p)
  else l ++ [(k, v)]

/-- Lookup by column index, i.e. `cells.get(idx)`. -/
def alGetI (l : List (Int × String)) (k : Int) : Option String :=
  (l.find? (fun p => p.1 == k)).map (fun p => p.2)

/-- The inner cell loop of `iter_sheet_rows`: builds the sparse
`cells : dict[int, str]` of one `<row>`, skipping cells without a matching
reference; `none` models an exception from `read_cell_value`. -/
def rowCellsAux (shared : List String) (acc : List (Int × String)) :
    List XCell → Option (List (Int × String))
  | [] => some acc
  | cell :: rest =>
    match cell.ref with
    | none => rowCellsAux shared acc rest
    | some r =>
      match matchRef r with
      | none => rowCellsAux shared acc rest
      | some letters =>
        match read_cell_value cell shared with
        | none => none
        | some v =>
          rowCellsAux shared (pyDictInsert acc (column_letters_to_index letters) (pyStrip v)) rest

/-- The sparse cell dict of one row. -/
def rowCells (shared : List String) (cells : List XCell) : Option (List (Int × String)) :=
  rowCellsAux shared [] cells

/-- Insertion into a list sorted by column index (used for `sorted(cells)`;
keys are unique, so stability is irrelevant). -/
def insertSorted (p : Int × String) : List (Int × String) → List (Int × String)
  | [] => [p]
  | q :: qs => if p.1 ≤ q.1 then p :: q :: qs else q :: insertSorted p qs

/-- `{idx: cells.get(idx, "") for idx in sorted(cells)}`: the same entries in
ascending key order. -/
def sortByKey (l : List (Int × String)) : List (Int × String) := l.foldr insertSorted []

/-- Insertion into a Python dict keyed by header name (replace in place or
append). -/
def pyDictInsertS (l : List (String × String)) (k v : String) : List (String × String) :=
  if k ∈ alKeys l then l.map (fun p => if p.1 = k then (k, v) else p)
  else l ++ [(k, v)]

/-- The `row_dict` comprehension of `iter_sheet_rows`: for each header entry
with a non-empty name, in header order, bind the name to the stripped cell
value at that column index (default `""`). -/
def mkRowDict (hm : List (Int × String)) (cells : List (Int × String)) : Row :=
  hm.foldl
    (fun acc p =>
      if p.2 ≠ "" then pyDictInsertS acc p.2 (pyStrip ((alGetI cells p.1).getD "")) else acc)
    []

/-- The row loop of `iter_sheet_rows`, carrying the optional header map;
`none` models a propagated exception. -/
def iterRowsAux (shared : List String) :
    Option (List (Int × String)) → List (List XCell) → Option (List Row)
  | _, [] => some []
  | hm?, r :: rs =>
    match rowCells shared r with
    | none => none
    | some cells =>
      match hm? with
      | none =>
        if cells = [] then iterRowsAux shared none rs
        else iterRowsAux shared (some (sortByKey cells)) rs
      | some hm =>
        if cells = [] then iterRowsAux shared (some hm) rs
        else
          let rd := mkRowDict hm cells
          if rd = [] then iterRowsAux shared (some hm) rs
          else
            match iterRowsAux shared (some hm) rs with
            | none => none
            | some out => some (rd :: out)

/-- `iter_sheet_rows` from `outreach.py`, over an already-parsed
`<sheetData>` (a list of `<row>` elements, each a list of `<c>` cells) and
the shared-string table; `none` models a propagated exception. -/
def iter_sheet_rows (shared : List String) (sheet : List (List XCell)) : Option (List Row) :=
  iterRowsAux shared none sheet

/-- A plain shared-string cell, used in concrete examples. -/
def sCell (r : String) (i : Nat) : XCell :=
  ⟨some r, some "s", some (some (toString i)), none, none⟩

/-- A plain untyped text cell, used in concrete examples. -/
def nCell (r txt : String) : XCell := ⟨some r, none, some (some txt), none, none⟩

example : column_letters_to_index "A" = 0 := by decide
example : column_letters_to_index "Z" = 25 := by decide
example : column_letters_to_index "AA" = 26 := by decide
example : pyInt? "12" = some 12 := by decide
example : pyInt? " -3 " = some (-3) := by decide
example : pyInt? "x2" = none := by decide
example : read_cell_value (sCell "A1" 1) ["a", "b"] = some "b" := by decide
example : read_cell_value (sCell "A1" 5) ["a", "b"] = some "" := by decide
example : read_cell_value ⟨some "A1", some "b", some (some "1"), none, none⟩ [] = some "TRUE" := by
  decide
example :
    iter_sheet_rows [] [[nCell "A1" "h", nCell "B1" "k"], [nCell "A2" "x"], [], [nCell "B3" "y"]] =
      some [[("h", "x"), ("k", "")], [("h", ""), ("k", "y")]] := by decide

/-! ### Template engine: `string.Template.safe_substitute`

`outreach.py` renders subject and body with `Template.safe_substitute`,
whose default pattern recognises, after a `$` delimiter: an escaped `$$`,
a named placeholder (ASCII identifier), a braced placeholder
`$` `\x7b` ident `\x7d`, or an invalid match (just the `$`, left as is).
Named and braced placeholders are replaced by the mapping value when the
name is present and left as literal text otherwise. -/

/-- Dropping a prefix never lengthens a list (termination helper). -/
theorem len_dropWhile_le (p : Char → Bool) (l : List Char) :
    (l.dropWhile p).length ≤ l.length :=
  (List.dropWhile_sublist p).length_le

/-- First character of a placeholder identifier: `[_a-zA-Z]`. -/
def isIdStart (c : Char) : Bool := c == '_' || c.isAlpha

/-- Later characters of a placeholder identifier: `[_a-zA-Z0-9]`. -/
def isIdChar (c : Char) : Bool := isIdStart c || c.isDigit

/-- The scanner of `safe_substitute` over the template's characters. -/
def substChars (lookup : String → Option String) : List Char → List Char
  | [] => []
  | c :: cs =>
    if c ≠ '$' then c :: substChars lookup cs
    else
      match cs with
      | [] => ['$']
      | c2 :: cs2 =>
        if c2 = '$' then '$' :: substChars lookup cs2
        else if c2 = '\x7b' then
          match cs2 with
          | [] => ['$', '\x7b']
          | c3 :: cs3 =>
            if isIdStart c3 then
              if (cs3.dropWhile isIdChar).head? = some '\x7d' then
                match lookup (String.mk (c3 :: cs3.takeWhile isIdChar)) with
                | some v => v.data ++ substChars lookup (cs3.dropWhile isIdChar).tail
                | none =>
                  '$' :: '\x7b' :: c3 ::
                    (cs3.takeWhile isIdChar ++ '\x7d' :: substChars lookup (cs3.dropWhile isIdChar).tail)
              else '$' :: '\x7b' :: substChars lookup (c3 :: cs3)
            else '$' :: '\x7b' :: substChars lookup (c3 :: cs3)
        else if isIdStart c2 then
          match lookup (String.mk (c2 :: cs2.takeWhile isIdChar)) with
          | some v => v.data ++ substChars lookup (cs2.dropWhile isIdChar)
          | none => '$' :: c2 :: (cs2.takeWhile isIdChar ++ substChars lookup (cs2.dropWhile isIdChar))
        else '$' :: c2 :: substChars lookup cs2
termination_by l => l.length
decreasing_by
  all_goals simp_wf
  all_goals try omega
  all_goals
    first
    | (have h1 := len_dropWhile_le isIdChar cs3
       have h2 := List.length_tail (List.dropWhile isIdChar cs3); omega)
    | (have h1 := len_dropWhile_le isIdChar cs3; omega)
    | (have h1 := len_dropWhile_le isIdChar cs2; omega)

/-- `Template(t).safe_substitute(ctx)` from `outreach.py`'s send and preview
paths. -/
def safe_substitute (t : String) (ctx : List (String × String)) : String :=
  String.mk (substChars (alGet ctx) t.data)

example :
    safe_substitute "Dear $hospital in $city," [("hospital", "RS A"), ("city", "Jakarta")] =
      "Dear RS A in Jakarta," := by
  simp +decide [safe_substitute, substChars, alGet, isIdStart, isIdChar, List.takeWhile, List.dropWhile]
example : safe_substitute "Hello $unknown" [("hospital", "RS A")] = "Hello $unknown" := by
  simp +decide [safe_substitute, substChars, alGet, isIdStart, isIdChar, List.takeWhile, List.dropWhile]
example : safe_substitute "a $$b $" [] = "a $b $" := by
  simp +decide [safe_substitute, substChars, alGet, isIdStart, isIdChar, List.takeWhile, List.dropWhile]
example : safe_substitute "x $\x7bhospital\x7d!" [("hospital", "H")] = "x H!" := by
  simp +decide [safe_substitute, substChars, alGet, isIdStart, isIdChar, List.takeWhile, List.dropWhile]
example : safe_substitute "x $\x7bhospital!" [("hospital", "H")] = "x $\x7bhospital!" := by
  simp +decide [safe_substitute, substChars, alGet, isIdStart, isIdChar, List.takeWhile, List.dropWhile]
example : safe_substitute "x $\x7b1a\x7d" [("1a", "H")] = "x $\x7b1a\x7d" := by
  simp +decide [safe_substitute, substChars, alGet, isIdStart, isIdChar, List.takeWhile, List.dropWhile]

/-! ### Sender: retry loop and aggregation

`send_one` renders the message once, then loops: attempt `1, 2, ...`; a
successful delivery returns, an exception with `attempt > retries` is
re-raised, otherwise the loop sleeps `retry_delay * attempt` seconds and
retries.  `send_messages` counts a success or records
`(email, str(exception))` per recipient and continues with the next one.
The delivery oracle `deliver` maps an attempt number to `none` (success) or
`some reason` (an exception with its string form); sleeps are returned as
the list of slept durations. -/

/-- The `while True` retry loop of `send_one`, entered at attempt number
`attempt` with `rem = retries + 1 - attempt` retries still allowed: the loop
body tries the delivery; on an exception it re-raises when
`attempt > retries` (i.e. `rem = 0`) and otherwise sleeps
`retry_delay * attempt` and loops.  Result is the final outcome (`none` =
delivered, `some reason` = the re-raised exception) paired with the backoff
sleeps performed, in order. -/
def sendOneFrom (deliver : Nat → Option String) (delay : ℚ) :
    Nat → Nat → Option String × List ℚ
  | attempt, 0 =>
    match deliver attempt with
    | none => (none, [])
    | some err => (some err, [])
  | attempt, rem + 1 =>
    match deliver attempt with
    | none => (none, [])
    | some _ =>
      let r := sendOneFrom deliver delay (attempt + 1) rem
      (r.1, delay * (attempt : ℚ) :: r.2)

/-- `send_one` for one recipient: the loop starting at attempt 1, so with
`retries` further attempts allowed after the first. -/
def send_one (deliver : Nat → Option String) (retries : Nat) (delay : ℚ) :
    Option String × List ℚ :=
  sendOneFrom deliver delay 1 retries

/-- `recipient["email"]` (contexts produced by the pipeline always carry the
key). -/
def ctxEmail (ctx : List (String × String)) : String := (alGet ctx "email").getD ""

/-- The recipient loop of `send_messages`: per recipient at position `i`
run `send_one` with that recipient's delivery oracle, then either count a
success or record `(email, reason)`, and continue. -/
def sendMessagesAux (deliver : Nat → Nat → Option String) (retries : Nat) (delay : ℚ) :
    Nat → List (List (String × String)) → Nat × List (String × String)
  | _, [] => (0, [])
  | i, r :: rs =>
    let res := send_one (deliver i) retries delay
    let rest := sendMessagesAux deliver retries delay (i + 1) rs
    match res.1 with
    | none => (rest.1 + 1, rest.2)
    | some reason => (rest.1, (ctxEmail r, reason) :: rest.2)

/-- `send_messages` from `outreach.py`: the final success count and the
recorded failure pairs. -/
def send_messages (recipients : List (List (String × String)))
    (deliver : Nat → Nat → Option String) (retries : Nat) (delay : ℚ) :
    Nat × List (String × String) :=
  sendMessagesAux deliver retries delay 0 recipients

example (d : ℚ) :
    send_one (fun a => if a ≤ 2 then some "boom" else none) 2 d = (none, [d * 1, d * 2]) := by
  simp +decide [send_one, sendOneFrom]
example (d : ℚ) :
    send_one (fun a => if a ≤ 9 then some "boom" else none) 2 d =
      (some "boom", [d * 1, d * 2]) := by
  simp +decide [send_one, sendOneFrom]
example (d : ℚ) :
    send_messages [[("email", "a@b")], [("email", "c@d")]]
      (fun i _ => if i = 0 then some "x" else none) 0 d = (1, [("a@b", "x")]) := by
  simp +decide [send_messages, sendMessagesAux, send_one, sendOneFrom, ctxEmail, alGet]

/-! ### Association-list helper lemmas (shared across claims) -/

theorem alGet_isSome_iff_mem (l : List (String × String)) (k : String) :
    (alGet l k).isSome = true ↔ k ∈ alKeys l := by
  induction l with
  | nil => simp [alGet, alKeys]
  | cons p l ih =>
    by_cases h : p.1 = k
    · simp [alGet, alKeys, List.find?_cons, h]
    · simpa [alGet, alKeys, List.find?_cons, h, Ne.symm h] using ih

theorem alGet_eq_none_of_not_mem {l : List (String × String)} {k : String}
    (h : k ∉ alKeys l) : alGet l k = none := by
  have := (alGet_isSome_iff_mem l k).not.mpr h
  cases hv : alGet l k with
  | none => rfl
  | some v => rw [hv] at this; simp at this

theorem alGet_append (l1 l2 : List (String × String)) (k : String) :
    alGet (l1 ++ l2) k = (alGet l1 k).or (alGet l2 k) := by
  unfold alGet
  rw [List.find?_append]
  cases h : l1.find? (fun p => p.1 == k) <;> simp [Option.or]

/-! ### C1: cell-value resolution dispatch -/

/-- C1: for every cell, `read_cell_value` follows the type-attribute
dispatch: a shared-string cell (`t="s"`) looks up the table by the integer
index of its `<v>` element, returning the table entry in range and the empty
string out of range (no error); an `inlineStr` cell yields the concatenated
inline text; a `b` cell yields `"TRUE"` exactly when the `<v>` text is
`"1"` and `"FALSE"` otherwise; any other type yields the raw `<v>` text when
present, else the `<t>` child's text, else the empty string. -/
theorem c1_read_cell_value_dispatch (shared : List String) (cell : XCell) :
    (cell.typ = some "s" → ∀ txt idx, cell.v = some (some txt) → pyInt? txt = some idx →
      ((0 ≤ idx ∧ idx < (shared.length : Int)) →
          read_cell_value cell shared = some (shared.getD idx.toNat "")) ∧
        (¬(0 ≤ idx ∧ idx < (shared.length : Int)) →
          read_cell_value cell shared = some "")) ∧
    (cell.typ = some "s" → (cell.v = none ∨ cell.v = some none) →
      read_cell_value cell shared = some "") ∧
    (cell.typ = some "inlineStr" →
      read_cell_value cell shared = some (String.join (cell.inl.getD []))) ∧
    (cell.typ = some "b" →
      read_cell_value cell shared =
        some (if cell.v = some (some "1") then "TRUE" else "FALSE")) ∧
    (cell.typ ≠ some "s" → cell.typ ≠ some "inlineStr" → cell.typ ≠ some "b" →
      (∀ txt, cell.v = some (some txt) → read_cell_value cell shared = some txt) ∧
        ((cell.v = none ∨ cell.v = some none) →
          read_cell_value cell shared = some ((cell.tChild.getD none).getD ""))) := by
  refine ⟨?_, ?_, ?_, ?_, ?_⟩
  · intro ht txt idx hv hint
    constructor <;> intro h <;> simp [read_cell_value, ht, hv, hint, h]
  · intro ht hv
    rcases hv with hv | hv <;> simp [read_cell_value, ht, hv]
  · intro ht
    have hne : cell.typ ≠ some "s" := by rw [ht]; simp
    simp [read_cell_value, ht, hne]
  · intro ht
    have h1 : cell.typ ≠ some "s" := by rw [ht]; simp
    have h2 : cell.typ ≠ some "inlineStr" := by rw [ht]; simp
    simp [read_cell_value, ht, h1, h2]
  · intro h1 h2 h3
    constructor
    · intro txt hv
      simp [read_cell_value, h1, h2, h3, hv]
    · intro hv
      rcases hv with hv | hv <;> simp [read_cell_value, h1, h2, h3, hv]

/-- Witness for C1 at concrete cells: a shared-string cell with an in-range
index, one with an out-of-range index, and a boolean cell. -/
theorem c1_read_cell_value_dispatch_witness :
    read_cell_value (sCell "A1" 1) ["a", "b"] = some "b" ∧
      read_cell_value (sCell "A1" 7) ["a", "b"] = some "" ∧
      read_cell_value ⟨some "B2", some "b", some (some "1"), none, none⟩ [] = some "TRUE" := by
  refine ⟨?_, ?_, ?_⟩
  · have h := ((c1_read_cell_value_dispatch ["a", "b"] (sCell "A1" 1)).1 (by decide) "1" 1
      (by decide) (by decide)).1 (by decide)
    simpa using h
  · have h := ((c1_read_cell_value_dispatch ["a", "b"] (sCell "A1" 7)).1 (by decide) "7" 7
      (by decide) (by decide)).2 (by decide)
    simpa using h
  · have h := (c1_read_cell_value_dispatch []
      ⟨some "B2", some "b", some (some "1"), none, none⟩).2.2.2.1 (by decide)
    simpa using h

/-! ### C3: row counting in `iter_sheet_rows` -/

/-- Whether the row that `iter_sheet_rows` will consume as the header (the
first row whose cell dict is non-empty) exists, parses without an exception,
and contains at least one non-empty cell value. -/
def headerOkB (shared : List String) : List (List XCell) → Bool
  | [] => false
  | r :: rs =>
    match rowCells shared r with
    | none => false
    | some [] => headerOkB shared rs
    | some (p :: ps) => (p :: ps).any (fun q => q.2 != "")

theorem pyDictInsertS_ne_nil (l : List (String × String)) (k v : String) :
    pyDictInsertS l k v ≠ [] := by
  unfold pyDictInsertS
  split
  · rename_i h
    rcases l with _ | ⟨p, l⟩
    · simp [alKeys] at h
    · simp
  · simp

/-- The `row_dict` fold yields a non-empty dict as soon as some header entry
has a non-empty name (or the accumulator is already non-empty). -/
theorem foldl_rowdict_ne_nil (cells : List (Int × String)) :
    ∀ (hm : List (Int × String)) (acc : List (String × String)),
      ((∃ p ∈ hm, p.2 ≠ "") ∨ acc ≠ []) →
      hm.foldl
        (fun acc p =>
          if p.2 ≠ "" then pyDictInsertS acc p.2 (pyStrip ((alGetI cells p.1).getD "")) else acc)
        acc ≠ [] := by
  intro hm
  induction hm with
  | nil =>
    intro acc h
    rcases h with ⟨p, hp, _⟩ | h
    · simp at hp
    · simpa using h
  | cons q hm ih =>
    intro acc h
    simp only [List.foldl_cons]
    by_cases hq : q.2 ≠ ""
    · refine ih _ (Or.inr ?_)
      simpa [hq] using pyDictInsertS_ne_nil acc q.2 (pyStrip ((alGetI cells q.1).getD ""))
    · have hstep :
          (if q.2 ≠ "" then pyDictInsertS acc q.2 (pyStrip ((alGetI cells q.1).getD "")) else acc)
            = acc := by simp [hq]
      rw [hstep]
      refine ih acc ?_
      rcases h with ⟨p, hp, hne⟩ | hacc
      · rcases List.mem_cons.mp hp with hpq | hp2
        · exact absurd (hpq ▸ hne) hq
        · exact Or.inl ⟨p, hp2, hne⟩
      · exact Or.inr hacc

theorem mkRowDict_ne_nil {hm cells : List (Int × String)}
    (h : ∃ p ∈ hm, p.2 ≠ "") : mkRowDict hm cells ≠ [] :=
  foldl_rowdict_ne_nil cells hm [] (Or.inl h)

theorem mem_insertSorted (p q : Int × String) (l : List (Int × String)) :
    q ∈ insertSorted p l ↔ q = p ∨ q ∈ l := by
  induction l with
  | nil => simp [insertSorted]
  | cons r l ih =>
    unfold insertSorted
    by_cases h : p.1 ≤ r.1
    · simp [h]
      try tauto
    · simp [h, ih]
      try tauto

theorem mem_sortByKey (l : List (Int × String)) (q : Int × String) :
    q ∈ sortByKey l ↔ q ∈ l := by
  induction l with
  | nil => simp [sortByKey]
  | cons p l ih =>
    unfold sortByKey at ih ⊢
    simp [List.foldr_cons, mem_insertSorted, ih]
    try tauto

/-- After the header is fixed with at least one non-empty header name, every
remaining row with a non-empty cell dict is yielded and every other row is
skipped. -/
theorem iterRowsAux_some_count (shared : List String) :
    ∀ (rs : List (List XCell)) (hm : List (Int × String)) (out : List Row),
      (∃ p ∈ hm, p.2 ≠ "") → iterRowsAux shared (some hm) rs = some out →
      out.length = rs.countP (fun r => decide (rowCells shared r ≠ some [])) := by
  intro rs
  induction rs with
  | nil =>
    intro hm out hhm h
    simp only [iterRowsAux] at h
    cases h
    simp
  | cons r rs ih =>
    intro hm out hhm h
    simp only [iterRowsAux] at h
    cases hc : rowCells shared r with
    | none => rw [hc] at h; exact absurd h (by simp)
    | some cells =>
      rw [hc] at h
      by_cases hce : cells = []
      · subst hce
        simp only [if_pos rfl] at h
        have := ih hm out hhm h
        simp [List.countP_cons, hc, this]
      · simp only [if_neg hce] at h
        have hrd : mkRowDict hm cells ≠ [] := mkRowDict_ne_nil hhm
        simp only [if_neg hrd] at h
        cases hrec : iterRowsAux shared (some hm) rs with
        | none => rw [hrec] at h; exact absurd h (by simp)
        | some out2 =>
          rw [hrec] at h
          cases h
          have := ih hm out2 hhm hrec
          have hpred : rowCells shared r ≠ some [] := by rw [hc]; simp [hce]
          simp [List.countP_cons, hpred, this]

/-- Header phase: skip empty rows, consume the first row with cells as the
header, then count the remaining rows with cells. -/
theorem iterRowsAux_none_count (shared : List String) :
    ∀ (rs : List (List XCell)) (out : List Row),
      headerOkB shared rs = true → iterRowsAux shared none rs = some out →
      out.length + 1 = rs.countP (fun r => decide (rowCells shared r ≠ some [])) := by
  intro rs
  induction rs with
  | nil => intro out h; simp [headerOkB] at h
  | cons r rs ih =>
    intro out hok hiter
    simp only [iterRowsAux] at hiter
    simp only [headerOkB] at hok
    cases hc : rowCells shared r with
    | none => rw [hc] at hok; simp at hok
    | some cells =>
      rw [hc] at hiter hok
      cases cells with
      | nil =>
        simp only [if_pos rfl] at hiter
        have hcnt := ih out hok hiter
        have hPr : decide (rowCells shared r ≠ some []) = false := by simp [hc]
        rw [List.countP_cons]
        simp only [hPr, if_false]
        simpa using hcnt
      | cons p ps =>
        have hne : (p :: ps) ≠ ([] : List (Int × String)) := by simp
        simp only [if_neg hne] at hiter
        have hex : ∃ q ∈ sortByKey (p :: ps), q.2 ≠ "" := by
          obtain ⟨q, hq, hqne⟩ := List.any_eq_true.mp hok
          refine ⟨q, (mem_sortByKey _ q).mpr hq, ?_⟩
          simpa using hqne
        have hcnt := iterRowsAux_some_count shared rs (sortByKey (p :: ps)) out hex hiter
        have hPr : decide (rowCells shared r ≠ some []) = true := by simp [hc]
        rw [List.countP_cons]
        simp only [hPr, if_true]
        omega

/-- A worksheet whose first cell-bearing row (consumed as the header) has
only empty cell values, followed by two rows with non-empty values. -/
def sheetEmptyHeader : List (List XCell) :=
  [[nCell "A1" ""], [nCell "A2" "x"], [nCell "A3" "y"]]

/-- Counterexample to C3 as stated: on `sheetEmptyHeader` the reader yields
no data rows at all, although the sheet has three rows with cells (two of
them with a non-empty cell value), so the yield is not one fewer than the
number of non-empty physical rows under either reading of "non-empty", and
the first row containing a non-empty cell (the second row) is not the
header: the all-empty first row is. -/
theorem c3_counterexample :
    iter_sheet_rows [] sheetEmptyHeader = some [] ∧
      sheetEmptyHeader.countP (fun r => decide (rowCells [] r ≠ some [])) = 3 ∧
      sheetEmptyHeader.countP (fun r => ((rowCells [] r).getD []).any (fun p => p.2 != "")) = 2 ∧
      (iter_sheet_rows [] sheetEmptyHeader).map List.length ≠ some (3 - 1) ∧
      (iter_sheet_rows [] sheetEmptyHeader).map List.length ≠ some (2 - 1) := by
  refine ⟨by decide, by decide, by decide, by decide, by decide⟩

/-- C3 (amended): the first row with at least one cell carrying a parseable
reference is consumed as the header row even when all its values are empty;
rows with no such cells are skipped entirely and never yielded; and provided
the header row has at least one non-empty cell value, every later row with a
parseable cell is yielded, so the reader yields exactly one fewer data row
than the number of rows containing at least one parseable cell. -/
theorem c3_iter_sheet_rows_count (shared : List String) (sheet : List (List XCell))
    (out : List Row) (hok : headerOkB shared sheet = true)
    (hit : iter_sheet_rows shared sheet = some out) :
    out.length + 1 = sheet.countP (fun r => decide (rowCells shared r ≠ some [])) :=
  iterRowsAux_none_count shared sheet out hok hit

/-- Witness for C3 (amended) on a concrete sheet: a header row, one row with
a value, one row with no cells (skipped), one row with a cell whose value is
empty (still yielded): 2 data rows, 3 rows with cells. -/
theorem c3_iter_sheet_rows_count_witness :
    headerOkB [] [[nCell "A1" "h"], [nCell "A2" "x"], [], [nCell "A3" ""]] = true ∧
      (2 + 1 : Nat) =
        ([[nCell "A1" "h"], [nCell "A2" "x"], [], [nCell "A3" ""]] : List (List XCell)).countP
          (fun r => decide (rowCells [] r ≠ some [])) :=
  ⟨by decide,
    c3_iter_sheet_rows_count [] [[nCell "A1" "h"], [nCell "A2" "x"], [], [nCell "A3" ""]]
      [[("h", "x")], [("h", "")]] (by decide) (by decide)⟩

/-! ### C5: column decoding and sparse rows -/

/-- The spec's description of the column decoding: the letters form a
base-26 numeral whose digit values are the alphabet positions `'A' = 1` ..
`'Z' = 26`, and the one-based value is shifted to a zero-based index. -/
def specColumnIndex (letters : String) : Int :=
  ((Nat.ofDigits 26 ((letters.data.map (fun c => c.toNat - 'A'.toNat + 1)).reverse) : Nat) : Int)
    - 1

theorem toUpper_of_upper (c : Char) (h : 65 ≤ c.toNat ∧ c.toNat ≤ 90) :
    c.toUpper = c := by
  simp only [Char.toUpper]
  rw [if_neg (by omega)]

theorem col_foldl :
    ∀ (l : List Char) (acc : Int), (∀ c ∈ l, 65 ≤ c.toNat ∧ c.toNat ≤ 90) →
      l.foldl (fun idx c => idx * 26 + ((c.toUpper.toNat : Int) - 64)) acc =
        acc * (26 : Int) ^ l.length +
          ((Nat.ofDigits 26 ((l.map (fun c => c.toNat - 'A'.toNat + 1)).reverse) : Nat) : Int) := by
  intro l
  induction l with
  | nil => intro acc h; simp [Nat.ofDigits]
  | cons c l ih =>
    intro acc h
    have hc := h c (List.mem_cons_self c l)
    have hl : ∀ x ∈ l, 65 ≤ x.toNat ∧ x.toNat ≤ 90 :=
      fun x hx => h x (List.mem_cons_of_mem c hx)
    simp only [List.foldl_cons, List.map_cons, List.reverse_cons]
    rw [ih _ hl, toUpper_of_upper c hc, Nat.ofDigits_append]
    have hone : (Nat.ofDigits 26 [c.toNat - 'A'.toNat + 1] : Nat) = c.toNat - 'A'.toNat + 1 := by
      simp [Nat.ofDigits_cons, Nat.ofDigits_nil]
    rw [hone]
    have h65 : (65 : Nat) ≤ c.toNat := hc.1
    push_cast [List.length_reverse, List.length_map, List.length_cons]
    have hsub : ((c.toNat - 65 : ℕ) : ℤ) = (c.toNat : ℤ) - 65 := by omega
    rw [hsub]
    ring

theorem alGet_cons (p : String × String) (l : List (String × String)) (k : String) :
    alGet (p :: l) k = if p.1 = k then some p.2 else alGet l k := by
  by_cases h : p.1 = k <;> simp [alGet, List.find?_cons, h]

theorem alGet_map_update_self (l : List (String × String)) (k v : String)
    (h : k ∈ alKeys l) :
    alGet (l.map (fun p => if p.1 = k then (k, v) else p)) k = some v := by
  induction l with
  | nil => simp [alKeys] at h
  | cons p l ih =>
    by_cases hp : p.1 = k
    · simp only [List.map_cons, if_pos hp]
      simp [alGet_cons]
    · have h2 : k ∈ alKeys l := by
        rcases List.mem_cons.mp h with h1 | h1
        · exact absurd h1.symm hp
        · exact h1
      simp only [List.map_cons, if_neg hp]
      rw [alGet_cons, if_neg hp]
      exact ih h2

theorem alGet_map_update_other (l : List (String × String)) (k v k0 : String)
    (h : k0 ≠ k) :
    alGet (l.map (fun p => if p.1 = k then (k, v) else p)) k0 = alGet l k0 := by
  induction l with
  | nil => simp
  | cons p l ih =>
    by_cases hp : p.1 = k
    · simp only [List.map_cons, if_pos hp]
      rw [alGet_cons, alGet_cons, if_neg (Ne.symm h), if_neg (by rw [hp]; exact Ne.symm h)]
      exact ih
    · simp only [List.map_cons, if_neg hp]
      rw [alGet_cons, alGet_cons]
      by_cases hp0 : p.1 = k0 <;> simp [hp0, ih]

theorem alGet_pyDictInsertS_self (l : List (String × String)) (k v : String) :
    alGet (pyDictInsertS l k v) k = some v := by
  unfold pyDictInsertS
  split
  · rename_i hmem; exact alGet_map_update_self l k v hmem
  · rename_i hmem
    rw [alGet_append, alGet_eq_none_of_not_mem hmem]
    simp [alGet_cons]

theorem alGet_pyDictInsertS_other (l : List (String × String)) (k v k0 : String)
    (h : k0 ≠ k) : alGet (pyDictInsertS l k v) k0 = alGet l k0 := by
  unfold pyDictInsertS
  split
  · exact alGet_map_update_other l k v k0 h
  · rw [alGet_append]
    have : alGet [(k, v)] k0 = none := by simp [alGet_cons, alGet, Ne.symm h]
    rw [this]
    cases alGet l k0 <;> simp

/-- Lookup in the `row_dict` fold: once the target binding is in the
accumulator, or its header entry is still to come, the final dict maps the
header name to the stripped value of the cell at that header's column
index. -/
theorem mkRowDict_fold_lookup (cells : List (Int × String)) (i : Int) (name : String)
    (hname : name ≠ "") :
    ∀ (hm : List (Int × String)) (acc : List (String × String)),
      (∀ j n2, (j, n2) ∈ hm → n2 = name → j = i) →
      (((i, name) ∈ hm ∧
          (alGet acc name = none ∨
            alGet acc name = some (pyStrip ((alGetI cells i).getD "")))) ∨
        alGet acc name = some (pyStrip ((alGetI cells i).getD ""))) →
      alGet
        (hm.foldl
          (fun acc p =>
            if p.2 ≠ "" then pyDictInsertS acc p.2 (pyStrip ((alGetI cells p.1).getD ""))
            else acc)
          acc) name = some (pyStrip ((alGetI cells i).getD "")) := by
  intro hm
  induction hm with
  | nil =>
    intro acc huniq hstate
    rcases hstate with ⟨hmem, _⟩ | hacc
    · simp at hmem
    · simpa using hacc
  | cons q hm ih =>
    intro acc huniq hstate
    simp only [List.foldl_cons]
    have huniq2 : ∀ j n2, (j, n2) ∈ hm → n2 = name → j = i :=
      fun j n2 hj hn => huniq j n2 (List.mem_cons_of_mem q hj) hn
    by_cases hqname : q.2 = name
    · have hqi : q.1 = i := huniq q.1 q.2 (by simp) hqname
      have hstep :
          (if q.2 ≠ "" then pyDictInsertS acc q.2 (pyStrip ((alGetI cells q.1).getD ""))
            else acc) = pyDictInsertS acc name (pyStrip ((alGetI cells i).getD "")) := by
        rw [if_pos (hqname ▸ hname), hqname, hqi]
      rw [hstep]
      exact ih _ huniq2 (Or.inr (alGet_pyDictInsertS_self _ _ _))
    · have hpres :
          alGet
            (if q.2 ≠ "" then pyDictInsertS acc q.2 (pyStrip ((alGetI cells q.1).getD ""))
              else acc) name = alGet acc name := by
        by_cases hq : q.2 = ""
        · simp [hq]
        · rw [if_pos hq]
          exact alGet_pyDictInsertS_other _ _ _ _ (fun h => hqname h.symm)
      rcases hstate with ⟨hmem, hval⟩ | hacc
      · have hmem2 : (i, name) ∈ hm := by
          rcases List.mem_cons.mp hmem with h1 | h1
          · exact absurd (congrArg Prod.snd h1).symm hqname
          · exact h1
        exact ih _ huniq2 (Or.inl ⟨hmem2, by rw [hpres]; exact hval⟩)
      · exact ih _ huniq2 (Or.inr (by rw [hpres]; exact hacc))

/-- C5: the column position of a cell reference is its alphabetic prefix
read as a base-26 numeral with `'A' = 1`, shifted to a zero-based index;
and a data row is a sparse map from these indices, so the value bound to a
header name is exactly the (stripped) value of the cell at that header's
column index — absent columns default to the empty string and never shift
the values of other columns. -/
theorem c5_column_index_sparse :
    (∀ letters : String, (∀ c ∈ letters.data, 65 ≤ c.toNat ∧ c.toNat ≤ 90) →
        column_letters_to_index letters = specColumnIndex letters) ∧
    (∀ (hm cells : List (Int × String)) (i : Int) (name : String),
        (i, name) ∈ hm → name ≠ "" →
        (∀ j n2, (j, n2) ∈ hm → n2 = name → j = i) →
        alGet (mkRowDict hm cells) name = some (pyStrip ((alGetI cells i).getD ""))) := by
  constructor
  · intro letters h
    unfold column_letters_to_index specColumnIndex
    rw [col_foldl letters.data 0 h]
    ring
  · intro hm cells i name hmem hname huniq
    exact mkRowDict_fold_lookup cells i name hname hm []
      huniq (Or.inl ⟨hmem, Or.inl (by simp [alGet])⟩)

/-- Witness for C5: the reference prefix `"AB"` decodes to index 27, and in
a row whose header maps index 0 to `"h"` and index 2 to `"k"`, the value of
`"k"` is the cell at column 2 even though column 1 is absent. -/
theorem c5_column_index_sparse_witness :
    column_letters_to_index "AB" = 27 ∧ specColumnIndex "AB" = 27 ∧
      alGet (mkRowDict [(0, "h"), (2, "k")] [(2, "v")]) "k" =
        some (pyStrip ((alGetI [(2, "v")] 2).getD "")) ∧
      pyStrip ((alGetI [(2, "v")] 2).getD "") = "v" := by
  refine ⟨?_, by decide, ?_, by decide⟩
  · rw [c5_column_index_sparse.1 "AB" (by decide)]; decide
  · refine c5_column_index_sparse.2 [(0, "h"), (2, "k")] [(2, "v")] 2 "k" (by decide)
      (by decide) ?_
    intro j n2 hm hn
    subst hn
    rcases List.mem_cons.mp hm with h | h
    · simp at h
    · rcases List.mem_cons.mp h with h2 | h2
      · exact congrArg Prod.fst h2
      · simp at h2

/-! ### C7 and C8: recipient context construction -/

theorem addSlug_preserves (ctx : List (String × String)) (kv : String × String) (k : String)
    (h : k ∈ alKeys ctx) :
    alGet (addSlug ctx kv) k = alGet ctx k ∧ k ∈ alKeys (addSlug ctx kv) := by
  unfold addSlug
  dsimp only
  split
  · constructor
    · rw [alGet_append]
      have hsome := (alGet_isSome_iff_mem ctx k).mpr h
      cases hv : alGet ctx k with
      | none => rw [hv] at hsome; simp at hsome
      | some v => simp
    · simp only [alKeys, List.map_append, List.mem_append]
      exact Or.inl h
  · exact ⟨rfl, h⟩

/-- The slug loop never changes an existing binding (collisions keep the
original entry). -/
theorem foldl_addSlug_preserves (l : List (String × String)) :
    ∀ (ctx : List (String × String)) (k : String), k ∈ alKeys ctx →
      alGet (l.foldl addSlug ctx) k = alGet ctx k := by
  induction l with
  | nil => intro ctx k h; rfl
  | cons kv l ih =>
    intro ctx k h
    obtain ⟨he, hm⟩ := addSlug_preserves ctx kv k h
    simp only [List.foldl_cons]
    rw [ih _ k hm, he]

theorem foldl_addSlug_keys_mono (l : List (String × String)) :
    ∀ (ctx : List (String × String)) (k : String), k ∈ alKeys ctx →
      k ∈ alKeys (l.foldl addSlug ctx) := by
  induction l with
  | nil => intro ctx k h; exact h
  | cons kv l ih =>
    intro ctx k h
    exact ih _ k (addSlug_preserves ctx kv k h).2

/-- Every key of the folded context is an original key or the slug of a
processed header. -/
theorem alKeys_foldl_addSlug_subset (l : List (String × String)) :
    ∀ (ctx : List (String × String)) (k : String), k ∈ alKeys (l.foldl addSlug ctx) →
      k ∈ alKeys ctx ∨ ∃ q ∈ l, slugify q.1 = k := by
  induction l with
  | nil => intro ctx k h; exact Or.inl h
  | cons kv l ih =>
    intro ctx k h
    simp only [List.foldl_cons] at h
    rcases ih _ k h with hk | ⟨q, hq, hs⟩
    · unfold addSlug at hk
      dsimp only at hk
      split at hk
      · simp only [alKeys, List.map_append, List.mem_append] at hk
        rcases hk with hk | hk
        · exact Or.inl hk
        · simp at hk
          exact Or.inr ⟨kv, by simp, hk.symm⟩
      · exact Or.inl hk
    · exact Or.inr ⟨q, List.mem_cons_of_mem kv hq, hs⟩

/-- Every header with a non-empty slug ends up exposed as a key. -/
theorem slug_mem_foldl (row : Row) :
    ∀ (ctx : List (String × String)) (h v : String), (h, v) ∈ row → slugify h ≠ "" →
      slugify h ∈ alKeys (row.foldl addSlug ctx) := by
  induction row with
  | nil => intro ctx h v hm; simp at hm
  | cons kv row ih =>
    intro ctx h v hm hs
    rcases List.mem_cons.mp hm with hh | hh
    · have hstep : slugify h ∈ alKeys (addSlug ctx kv) := by
        rw [← hh]
        unfold addSlug
        dsimp only
        split
        · simp [alKeys]
        · rename_i hcond
          rw [not_and_or, not_not] at hcond
          rcases hcond with hcond | hcond
          · exact absurd (by simpa using hcond) hs
          · simpa using hcond
      simpa only [List.foldl_cons] using foldl_addSlug_keys_mono row _ _ hstep
    · exact ih _ h v hh hs

/-- The first header carrying a given fresh slug binds it to that header's
stripped value. -/
theorem build_context_first_slug (pre post : List (String × String)) (h v : String)
    (hs : slugify h ≠ "")
    (hnotfixed : slugify h ∉ alKeys (fixedContext (pre ++ (h, v) :: post)))
    (hpre : ∀ q ∈ pre, slugify q.1 ≠ slugify h) :
    alGet (build_context (pre ++ (h, v) :: post)) (slugify h) = some (pyStrip v) := by
  unfold build_context
  rw [List.foldl_append, List.foldl_cons]
  have hctx1 : slugify h ∉ alKeys (pre.foldl addSlug (fixedContext (pre ++ (h, v) :: post))) := by
    intro hk
    rcases alKeys_foldl_addSlug_subset pre _ _ hk with hk1 | ⟨q, hq, hsq⟩
    · exact hnotfixed hk1
    · exact hpre q hq hsq
  have hstep : addSlug (pre.foldl addSlug (fixedContext (pre ++ (h, v) :: post))) (h, v) =
      pre.foldl addSlug (fixedContext (pre ++ (h, v) :: post)) ++ [(slugify h, pyStrip v)] := by
    unfold addSlug
    dsimp only
    rw [if_pos ⟨hs, hctx1⟩]
  rw [hstep]
  have hmem2 : slugify h ∈ alKeys
      (pre.foldl addSlug (fixedContext (pre ++ (h, v) :: post)) ++ [(slugify h, pyStrip v)]) := by
    simp [alKeys]
  rw [foldl_addSlug_preserves post _ _ hmem2, alGet_append,
    alGet_eq_none_of_not_mem hctx1]
  simp [alGet_cons]

/-- C7: every header of a row whose slug (lowercase, non-alphanumeric runs
collapsed to underscore, trimmed) is non-empty is exposed as a key of the
recipient context; a slug that collides with an already-present key leaves
the existing entry untouched; and a fresh slug is bound to the value of its
first header. -/
theorem c7_slug_fallback_keys :
    (∀ (row : Row) (ctx : List (String × String)) (k : String), k ∈ alKeys ctx →
        alGet (row.foldl addSlug ctx) k = alGet ctx k) ∧
      (∀ (row : Row) (h v : String), (h, v) ∈ row → slugify h ≠ "" →
        slugify h ∈ alKeys (build_context row)) ∧
      (∀ (pre post : List (String × String)) (h v : String), slugify h ≠ "" →
        slugify h ∉ alKeys (fixedContext (pre ++ (h, v) :: post)) →
        (∀ q ∈ pre, slugify q.1 ≠ slugify h) →
        alGet (build_context (pre ++ (h, v) :: post)) (slugify h) = some (pyStrip v)) := by
  refine ⟨fun row => foldl_addSlug_preserves row, ?_, build_context_first_slug⟩
  intro row h v hm hs
  exact slug_mem_foldl row (fixedContext row) h v hm hs

/-- Witness for C7 at a concrete row: the header `"No. Telp"` is exposed
under its slug `"no_telp"` with its value, and the fixed `"email"` key is
not overwritten by the header `"Email"` whose slug collides with it. -/
theorem c7_slug_fallback_keys_witness :
    slugify "No. Telp" = "no_telp" ∧
      alGet (build_context [("No. Telp", "08")]) (slugify "No. Telp") =
        some (pyStrip "08") ∧
      pyStrip "08" = "08" ∧
      alGet ([("Email", "x@y")].foldl addSlug (fixedContext [("Email", "x@y")])) "email" =
        alGet (fixedContext [("Email", "x@y")]) "email" := by
    refine ⟨by decide, ?_, by decide, ?_⟩
    · exact c7_slug_fallback_keys.2.2 [] [] "No. Telp" "08" (by decide) (by decide) (by simp)
    · exact c7_slug_fallback_keys.1 [("Email", "x@y")] (fixedContext [("Email", "x@y")]) "email"
        (by decide)

theorem firstTruthy_cons_some_ne (s : String) (rest : List (Option String)) (h : s ≠ "") :
    firstTruthy (some s :: rest) = s := by simp [firstTruthy, h]

theorem firstTruthy_cons_some_empty (rest : List (Option String)) :
    firstTruthy (some "" :: rest) = firstTruthy rest := by simp [firstTruthy]

/-- C8: the fixed semantic fields come from exact header names with the
fallback chains applied in order (first non-empty raw value wins, then
stripped); a field whose sources are all missing or empty is still present,
bound to the empty string; and the slug loop never disturbs these eight
entries. -/
theorem c8_fixed_field_extraction (row : Row) :
    (∀ k ∈ (["hospital", "province", "city", "address", "phone", "owner", "director",
          "email"] : List String),
        alGet (build_context row) k = alGet (fixedContext row) k ∧
          (alGet (fixedContext row) k).isSome = true) ∧
      (∀ a, alGet row "Alamat (List)" = some a → a ≠ "" →
        alGet (build_context row) "address" = some (pyStrip a)) ∧
      (∀ p, (alGet row "Alamat (List)" = none ∨ alGet row "Alamat (List)" = some "") →
        alGet row "Alamat (Profile)" = some p → p ≠ "" →
        alGet (build_context row) "address" = some (pyStrip p)) ∧
      ((alGet row "Alamat (List)" = none ∨ alGet row "Alamat (List)" = some "") →
        (alGet row "Alamat (Profile)" = none ∨ alGet row "Alamat (Profile)" = some "") →
        alGet (build_context row) "address" = some "") ∧
      (∀ a, alGet row "Telepon (List)" = some a → a ≠ "" →
        alGet (build_context row) "phone" = some (pyStrip a)) ∧
      (∀ p, (alGet row "Telepon (List)" = none ∨ alGet row "Telepon (List)" = some "") →
        alGet row "Telepon (Profile)" = some p → p ≠ "" →
        alGet (build_context row) "phone" = some (pyStrip p)) ∧
      (∀ a, alGet row "Pemilik (List)" = some a → a ≠ "" →
        alGet (build_context row) "owner" = some (pyStrip a)) ∧
      (∀ p, (alGet row "Pemilik (List)" = none ∨ alGet row "Pemilik (List)" = some "") →
        alGet row "Kepemilikan" = some p → p ≠ "" →
        alGet (build_context row) "owner" = some (pyStrip p)) ∧
      (∀ hv, alGet row "Rumah Sakit" = some hv →
        alGet (build_context row) "hospital" = some (pyStrip hv)) ∧
      (alGet row "Rumah Sakit" = none → alGet (build_context row) "hospital" = some "") := by
  have halKeys : alKeys (fixedContext row) =
      ["hospital", "province", "city", "address", "phone", "owner", "director", "email"] := rfl
  have hpres : ∀ k, k ∈ alKeys (fixedContext row) →
      alGet (build_context row) k = alGet (fixedContext row) k :=
    fun k hk => foldl_addSlug_preserves row (fixedContext row) k hk
  have haddr : alGet (fixedContext row) "address" =
      some (pyStrip (firstTruthy [alGet row "Alamat (List)", alGet row "Alamat (Profile)"])) :=
    rfl
  have hphone : alGet (fixedContext row) "phone" =
      some (pyStrip (firstTruthy [alGet row "Telepon (List)", alGet row "Telepon (Profile)"])) :=
    rfl
  have howner : alGet (fixedContext row) "owner" =
      some (pyStrip (firstTruthy [alGet row "Pemilik (List)", alGet row "Kepemilikan"])) := rfl
  have hhosp : alGet (fixedContext row) "hospital" =
      some (pyStrip (firstTruthy [alGet row "Rumah Sakit"])) := rfl
  refine ⟨?_, ?_, ?_, ?_, ?_, ?_, ?_, ?_, ?_, ?_⟩
  · intro k hk
    refine ⟨hpres k (by rw [halKeys]; exact hk), ?_⟩
    fin_cases hk <;> rfl
  · intro a ha hane
    rw [hpres "address" (by rw [halKeys]; decide), haddr, ha,
      firstTruthy_cons_some_ne a _ hane]
  · intro p hnone hp hpne
    rw [hpres "address" (by rw [halKeys]; decide), haddr]
    rcases hnone with h1 | h1 <;>
      rw [h1, hp] <;>
      simp [firstTruthy, hpne]
  · intro h1 h2
    rw [hpres "address" (by rw [halKeys]; decide), haddr]
    rcases h1 with h1 | h1 <;> rcases h2 with h2 | h2 <;> rw [h1, h2] <;> rfl
  · intro a ha hane
    rw [hpres "phone" (by rw [halKeys]; decide), hphone, ha,
      firstTruthy_cons_some_ne a _ hane]
  · intro p hnone hp hpne
    rw [hpres "phone" (by rw [halKeys]; decide), hphone]
    rcases hnone with h1 | h1 <;>
      rw [h1, hp] <;>
      simp [firstTruthy, hpne]
  · intro a ha hane
    rw [hpres "owner" (by rw [halKeys]; decide), howner, ha,
      firstTruthy_cons_some_ne a _ hane]
  · intro p hnone hp hpne
    rw [hpres "owner" (by rw [halKeys]; decide), howner]
    rcases hnone with h1 | h1 <;>
      rw [h1, hp] <;>
      simp [firstTruthy, hpne]
  · intro hv hh
    rw [hpres "hospital" (by rw [halKeys]; decide), hhosp, hh]
    by_cases hne : hv = ""
    · subst hne; rfl
    · rw [firstTruthy_cons_some_ne hv _ hne]
  · intro hh
    rw [hpres "hospital" (by rw [halKeys]; decide), hhosp, hh]
    rfl

/-- Witness for C8 at concrete rows: the address falls back to the profile
column when the list column is absent, and an empty row still carries an
empty address. -/
theorem c8_fixed_field_extraction_witness :
    alGet (build_context [("Alamat (Profile)", "Jl. X")]) "address" = some (pyStrip "Jl. X") ∧
      pyStrip "Jl. X" = "Jl. X" ∧
      alGet (build_context ([] : Row)) "address" = some "" := by
  refine ⟨?_, by decide, ?_⟩
  · exact (c8_fixed_field_extraction [("Alamat (Profile)", "Jl. X")]).2.2.1 "Jl. X"
      (Or.inl (by decide)) (by decide) (by decide)
  · exact (c8_fixed_field_extraction ([] : Row)).2.2.2.1 (Or.inl (by decide))
      (Or.inl (by decide))

/-! ### C4 and C9: recipient filtering, deduplication, email invariant -/

/-- The spec's row filter: the resolved email field is non-empty and
contains an `@`. -/
def goodEmail (row : Row) : Prop :=
  rowEmail row ≠ "" ∧ pyContains (rowEmail row) '@' = true

instance goodEmail.instDecidable (row : Row) : Decidable (goodEmail row) := by
  unfold goodEmail; infer_instance

/-- The lowercased resolved email: the deduplication key. -/
def lowerEmail (row : Row) : String := pyLower (rowEmail row)

/-- The spec's description of deduplication: keep the first row for each
key; every later row with the same key is dropped silently. -/
def dedupByFirst (key : Row → String) : List Row → List Row
  | [] => []
  | r :: rs => r :: dedupByFirst key (rs.filter (fun x => key x ≠ key r))
termination_by l => l.length
decreasing_by
  simp_wf
  have := List.length_filter_le (fun x => !decide (key x = key r)) rs
  omega

theorem mem_dedupByFirst_bounded {key : Row → String} :
    ∀ (n : Nat) (l : List Row), l.length ≤ n → ∀ x ∈ dedupByFirst key l, x ∈ l := by
  intro n
  induction n with
  | zero =>
    intro l hl x hx
    have hnil : l = [] := List.eq_nil_of_length_eq_zero (Nat.le_zero.mp hl)
    subst hnil
    simpa [dedupByFirst] using hx
  | succ n ih =>
    intro l hl x hx
    cases l with
    | nil => simpa [dedupByFirst] using hx
    | cons r rs =>
      rw [dedupByFirst] at hx
      rcases List.mem_cons.mp hx with h | h
      · exact h ▸ List.mem_cons_self r rs
      · have hlen : (rs.filter (fun x => key x ≠ key r)).length ≤ n := by
          have := List.length_filter_le (fun x => decide (key x ≠ key r)) rs
          simp only [List.length_cons] at hl
          omega
        exact List.mem_cons_of_mem r (List.mem_of_mem_filter (ih _ hlen x h))

theorem mem_of_mem_dedupByFirst {key : Row → String} {l : List Row} {x : Row}
    (h : x ∈ dedupByFirst key l) : x ∈ l :=
  mem_dedupByFirst_bounded l.length l le_rfl x h

/-- The recipient loop equals filter-then-dedup-then-build, for any starting
`seen` set. -/
theorem loadRecAux_spec (rows : List Row) :
    ∀ seen : List String,
      loadRecAux seen rows =
        (dedupByFirst lowerEmail
            (rows.filter (fun r => goodEmail r ∧ lowerEmail r ∉ seen))).map build_context := by
  induction rows with
  | nil => intro seen; simp [loadRecAux, dedupByFirst]
  | cons r rs ih =>
    intro seen
    simp only [loadRecAux]
    by_cases hg : goodEmail r
    · have hg2 : rowEmail r ≠ "" ∧ pyContains (rowEmail r) '@' = true := hg
      rw [if_pos hg2]
      by_cases hs : lowerEmail r ∈ seen
      · have hs2 : pyLower (rowEmail r) ∈ seen := hs
        rw [if_pos hs2]
        have hcond : ¬(goodEmail r ∧ lowerEmail r ∉ seen) := fun hc => hc.2 hs
        rw [List.filter_cons_of_neg (by simpa using hcond)]
        exact ih seen
      · have hs2 : pyLower (rowEmail r) ∉ seen := hs
        rw [if_neg hs2]
        have hcond : goodEmail r ∧ lowerEmail r ∉ seen := ⟨hg, hs⟩
        rw [List.filter_cons_of_pos (by simpa using hcond)]
        rw [dedupByFirst, List.map_cons]
        congr 1
        have hle : pyLower (rowEmail r) = lowerEmail r := rfl
        rw [hle, ih (lowerEmail r :: seen), List.filter_filter]
        congr 1
        congr 1
        apply List.filter_congr
        intro x hx
        by_cases h1 : goodEmail x <;> by_cases h2 : lowerEmail x = lowerEmail r <;>
          by_cases h3 : lowerEmail x ∈ seen <;> simp [h1, h2, h3]
    · have hg2 : ¬(rowEmail r ≠ "" ∧ pyContains (rowEmail r) '@' = true) := hg
      rw [if_neg hg2]
      have hcond : ¬(goodEmail r ∧ lowerEmail r ∉ seen) := fun hc => hg hc.1
      rw [List.filter_cons_of_neg (by simpa using hcond)]
      exact ih seen

/-- C4: the recipients are exactly the rows with a usable email (non-empty,
containing `@`), deduplicated by lowercased email keeping the first
occurrence, in the original order, each turned into its context; and the
spec's round trip: a `"Foo@Bar.com"` row followed by a `"foo@bar.com"`
duplicate yields exactly one recipient whose email keeps the first row's
original case. -/
theorem c4_load_recipients_filter_dedup :
    (∀ rows : List Row,
        load_recipients rows =
          (dedupByFirst lowerEmail (rows.filter (fun r => goodEmail r))).map build_context) ∧
      load_recipients [[("Email Perusahaan", "Foo@Bar.com")], [("Email Perusahaan", "foo@bar.com")]] =
        [build_context [("Email Perusahaan", "Foo@Bar.com")]] ∧
      alGet (build_context [("Email Perusahaan", "Foo@Bar.com")]) "email" =
        some "Foo@Bar.com" := by
  refine ⟨?_, by decide, by decide⟩
  intro rows
  unfold load_recipients
  rw [loadRecAux_spec rows []]
  congr 1
  congr 1
  apply List.filter_congr
  intro x hx
  simp

/-- C9: every context produced by the recipient builder carries an `email`
value that is non-empty and contains `@`. -/
theorem c9_email_invariant (rows : List Row) (ctx : List (String × String))
    (h : ctx ∈ load_recipients rows) :
    ∃ e, alGet ctx "email" = some e ∧ e ≠ "" ∧ pyContains e '@' = true := by
  unfold load_recipients at h
  rw [loadRecAux_spec rows []] at h
  obtain ⟨rr, hrr, rfl⟩ := List.mem_map.mp h
  have hfilter := mem_of_mem_dedupByFirst hrr
  have hgood : goodEmail rr := by
    have := (List.mem_filter.mp hfilter).2
    simpa using this
  refine ⟨rowEmail rr, ?_, hgood.1, hgood.2⟩
  have hmem : "email" ∈ alKeys (fixedContext rr) := by
    have halKeys : alKeys (fixedContext rr) =
        ["hospital", "province", "city", "address", "phone", "owner", "director", "email"] :=
      rfl
    rw [halKeys]; decide
  unfold build_context
  rw [foldl_addSlug_preserves rr (fixedContext rr) "email" hmem]
  rfl

/-- Witness for C9 at a concrete workbook row. -/
theorem c9_email_invariant_witness :
    ∃ e, alGet (build_context [("Email Perusahaan", "a@b")]) "email" = some e ∧
      e ≠ "" ∧ pyContains e '@' = true :=
  c9_email_invariant [[("Email Perusahaan", "a@b")]]
    (build_context [("Email Perusahaan", "a@b")]) (by decide)

/-! ### C6: safe substitution -/

theorem takeWhile_append_of_all (p : Char → Bool) (l1 l2 : List Char)
    (h1 : ∀ x ∈ l1, p x = true) (h2 : ∀ c, l2.head? = some c → p c = false) :
    (l1 ++ l2).takeWhile p = l1 ∧ (l1 ++ l2).dropWhile p = l2 := by
  induction l1 with
  | nil =>
    cases l2 with
    | nil => simp
    | cons c l2 =>
      have := h2 c rfl
      simp [List.takeWhile_cons, List.dropWhile_cons, this]
  | cons x l1 ih =>
    have hx := h1 x (List.mem_cons_self x l1)
    have ih2 := ih (fun y hy => h1 y (List.mem_cons_of_mem x hy))
    simp [List.takeWhile_cons, List.dropWhile_cons, hx, ih2.1, ih2.2]

/-- Literal text before a `$` passes through the scanner unchanged. -/
theorem substChars_literal_front (lk : String → Option String) :
    ∀ (pre rest : List Char), '$' ∉ pre →
      substChars lk (pre ++ rest) = pre ++ substChars lk rest := by
  intro pre
  induction pre with
  | nil => intro rest h; rfl
  | cons c pre ih =>
    intro rest h
    have hc : c ≠ '$' := fun hc => h (hc ▸ List.mem_cons_self c pre)
    have hp : '$' ∉ pre := fun hp => h (List.mem_cons_of_mem c hp)
    simp only [List.cons_append]
    rw [substChars.eq_def]
    dsimp only
    rw [if_pos hc, ih rest hp]

/-- A `$` followed by an identifier is resolved through the lookup: replaced
when present, left literal when absent; scanning continues after it. -/
theorem substChars_named (lk : String → Option String) (c : Char) (name post : List Char)
    (hstart : isIdStart c = true)
    (hname : ∀ x ∈ name, isIdChar x = true)
    (hpost : ∀ d, post.head? = some d → isIdChar d = false) :
    substChars lk ('$' :: c :: (name ++ post)) =
      (match lk (String.mk (c :: name)) with
      | some v => v.data ++ substChars lk post
      | none => '$' :: c :: (name ++ substChars lk post)) := by
  obtain ⟨htake, hdrop⟩ := takeWhile_append_of_all isIdChar name post hname hpost
  have hc1 : c ≠ '$' := fun h => absurd (h ▸ hstart) (by decide)
  have hc2 : c ≠ '\x7b' := fun h => absurd (h ▸ hstart) (by decide)
  rw [substChars.eq_def]
  dsimp only
  rw [if_neg (by simp)]
  rw [if_neg hc1, if_neg hc2, if_pos hstart, htake, hdrop]

/-- C6: rendering is deterministic (same template, same context, same
output); a placeholder whose identifier is a present key is replaced by that
key's value; one naming an absent key stays literal text; a `$` followed by
a non-identifier character, or a trailing `$`, passes through unchanged (no
error); and `"Hello $unknown"` renders unchanged when `"unknown"` is not a
key. -/
theorem c6_safe_substitution :
    (∀ (t : String) (ctx : List (String × String)),
        safe_substitute t ctx = safe_substitute t ctx) ∧
      (∀ (ctx : List (String × String)) (pre : List Char) (c : Char)
          (name post : List Char) (v : String),
        '$' ∉ pre → isIdStart c = true → (∀ x ∈ name, isIdChar x = true) →
        (∀ d, post.head? = some d → isIdChar d = false) →
        alGet ctx (String.mk (c :: name)) = some v →
        substChars (alGet ctx) (pre ++ '$' :: c :: (name ++ post)) =
          pre ++ v.data ++ substChars (alGet ctx) post) ∧
      (∀ (ctx : List (String × String)) (pre : List Char) (c : Char)
          (name post : List Char),
        '$' ∉ pre → isIdStart c = true → (∀ x ∈ name, isIdChar x = true) →
        (∀ d, post.head? = some d → isIdChar d = false) →
        alGet ctx (String.mk (c :: name)) = none →
        substChars (alGet ctx) (pre ++ '$' :: c :: (name ++ post)) =
          pre ++ '$' :: c :: (name ++ substChars (alGet ctx) post)) ∧
      (∀ (ctx : List (String × String)) (c : Char) (cs : List Char),
        c ≠ '$' → c ≠ '\x7b' → isIdStart c = false →
        substChars (alGet ctx) ('$' :: c :: cs) = '$' :: c :: substChars (alGet ctx) cs) ∧
      (∀ ctx : List (String × String), substChars (alGet ctx) ['$'] = ['$']) ∧
      (∀ ctx : List (String × String), alGet ctx "unknown" = none →
        safe_substitute "Hello $unknown" ctx = "Hello $unknown") := by
  refine ⟨fun t ctx => rfl, ?_, ?_, ?_, ?_, ?_⟩
  · intro ctx pre c name post v hpre hstart hname hpost hlk
    rw [substChars_literal_front (alGet ctx) pre _ hpre,
      substChars_named (alGet ctx) c name post hstart hname hpost, hlk]
    simp
  · intro ctx pre c name post hpre hstart hname hpost hlk
    rw [substChars_literal_front (alGet ctx) pre _ hpre,
      substChars_named (alGet ctx) c name post hstart hname hpost, hlk]
  · intro ctx c cs h1 h2 h3
    rw [substChars.eq_def]
    dsimp only
    rw [if_neg (by simp)]
    rw [if_neg h1, if_neg h2, if_neg (by simp [h3])]
  · intro ctx
    rw [substChars.eq_def]
    dsimp only
    simp
  · intro ctx h
    unfold safe_substitute
    congr 1
    have hdata : "Hello $unknown".data =
        "Hello ".data ++ '$' :: 'u' :: ("nknown".data ++ ([] : List Char)) := by decide
    rw [hdata, substChars_literal_front (alGet ctx) _ _ (by decide),
      substChars_named (alGet ctx) 'u' "nknown".data [] (by decide) (by decide) (by simp)]
    have hn : String.mk ('u' :: "nknown".data) = "unknown" := by decide
    rw [hn, h]
    have hnil : substChars (alGet ctx) [] = [] := by rw [substChars.eq_def]
    rw [hnil]

/-- Witness for C6 at concrete templates and contexts. -/
theorem c6_safe_substitution_witness :
    substChars (alGet [("city", "Jakarta")]) ("in ".data ++ '$' :: 'c' :: ("ity".data ++ [])) =
        "in ".data ++ "Jakarta".data ++ substChars (alGet [("city", "Jakarta")]) [] ∧
      substChars (alGet []) ('$' :: '%' :: ['x']) = '$' :: '%' :: substChars (alGet []) ['x'] ∧
      safe_substitute "Hello $unknown" [] = "Hello $unknown" := by
  refine ⟨?_, ?_, ?_⟩
  · exact c6_safe_substitution.2.1 [("city", "Jakarta")] "in ".data 'c' "ity".data [] "Jakarta"
      (by decide) (by decide) (by decide) (by simp) (by decide)
  · exact c6_safe_substitution.2.2.2.1 [] '%' ['x'] (by decide) (by decide) (by decide)
  · exact c6_safe_substitution.2.2.2.2.2 [] (by decide)

/-! ### C2 and C10: sender retry policy and outcome accounting -/

/-- When every attempt up to the last allowed one fails, the retry loop
performs every backoff sleep and re-raises the exception of the final
attempt. -/
theorem sendOneFrom_all_fail (deliver : Nat → Option String) (delay : ℚ) :
    ∀ (rem attempt : Nat) (e : String),
      (∀ a, attempt ≤ a → a < attempt + rem → deliver a ≠ none) →
      deliver (attempt + rem) = some e →
      sendOneFrom deliver delay attempt rem =
        (some e, (List.range rem).map (fun k => delay * ((attempt + k : Nat) : ℚ))) := by
  intro rem
  induction rem with
  | zero =>
    intro attempt e hall he
    rw [Nat.add_zero] at he
    simp [sendOneFrom, he]
  | succ rem ih =>
    intro attempt e hall he
    have h1 : deliver attempt ≠ none := hall attempt le_rfl (by omega)
    cases hd : deliver attempt with
    | none => exact absurd hd h1
    | some err =>
      have ih2 := ih (attempt + 1) e
        (fun a ha1 ha2 => hall a (by omega) (by omega))
        (by rw [show attempt + 1 + rem = attempt + (rem + 1) by omega]; exact he)
      simp only [sendOneFrom, hd, ih2]
      rw [List.range_succ_eq_map, List.map_cons, List.map_map]
      congr 2
      apply List.map_congr_left
      intro k hk
      simp only [Function.comp_apply, Nat.succ_eq_add_one]
      push_cast
      ring

/-- C2: an exception with attempts left sleeps `retry_delay * attempt` and
retries; an exception past the retry budget is re-raised with its reason;
a recipient whose `send_one` raises is recorded as `(email, reason)` and the
run continues with the remaining recipients; a recipient failing every
allowed attempt sleeps the full increasing backoff sequence; and the spec's
scenario: with `retries = 2` and delivery failing twice then succeeding,
the recipient is one success with no recorded failure after two backoff
sleeps of increasing duration. -/
theorem c2_retry_and_failure_handling :
    (∀ (deliver : Nat → Option String) (delay : ℚ) (attempt rem : Nat) (e : String),
        deliver attempt = some e →
        sendOneFrom deliver delay attempt (rem + 1) =
          ((sendOneFrom deliver delay (attempt + 1) rem).1,
            delay * (attempt : ℚ) :: (sendOneFrom deliver delay (attempt + 1) rem).2)) ∧
      (∀ (deliver : Nat → Option String) (delay : ℚ) (attempt : Nat) (e : String),
        deliver attempt = some e →
        sendOneFrom deliver delay attempt 0 = (some e, [])) ∧
      (∀ (deliver : Nat → Nat → Option String) (retries : Nat) (delay : ℚ) (i : Nat)
          (r : List (String × String)) (rs : List (List (String × String))) (e : String),
        (send_one (deliver i) retries delay).1 = some e →
        sendMessagesAux deliver retries delay i (r :: rs) =
          ((sendMessagesAux deliver retries delay (i + 1) rs).1,
            (ctxEmail r, e) :: (sendMessagesAux deliver retries delay (i + 1) rs).2)) ∧
      (∀ (deliver : Nat → Option String) (delay : ℚ) (retries : Nat) (e : String),
        (∀ a, 1 ≤ a → a < 1 + retries → deliver a ≠ none) →
        deliver (1 + retries) = some e →
        send_one deliver retries delay =
          (some e, (List.range retries).map (fun k => delay * ((1 + k : Nat) : ℚ)))) ∧
      (∀ (delay : ℚ) (deliver : Nat → Option String) (e1 e2 : String)
          (r : List (String × String)),
        deliver 1 = some e1 → deliver 2 = some e2 → deliver 3 = none →
        send_one deliver 2 delay = (none, [delay * 1, delay * 2]) ∧
          send_messages [r] (fun _ => deliver) 2 delay = (1, []) ∧
          (0 < delay → delay * 1 < delay * 2)) := by
  refine ⟨?_, ?_, ?_, ?_, ?_⟩
  · intro deliver delay attempt rem e h
    simp [sendOneFrom, h]
  · intro deliver delay attempt e h
    simp [sendOneFrom, h]
  · intro deliver retries delay i r rs e h
    simp [sendMessagesAux, h]
  · intro deliver delay retries e hall he
    exact sendOneFrom_all_fail deliver delay retries 1 e hall he
  · intro delay deliver e1 e2 r h1 h2 h3
    have hso : send_one deliver 2 delay = (none, [delay * 1, delay * 2]) := by
      simp [send_one, sendOneFrom, h1, h2, h3]
    refine ⟨hso, ?_, ?_⟩
    · simp [send_messages, sendMessagesAux, hso]
    · intro hd
      linarith

/-- Witness for C2: a delivery oracle failing on the first two attempts and
succeeding on the third, with retries 2 and delay 5. -/
theorem c2_retry_and_failure_handling_witness :
    send_one (fun a => if a ≤ 2 then some "boom" else none) 2 5 = (none, [5 * 1, 5 * 2]) ∧
      send_messages [[("email", "a@b")]] (fun _ a => if a ≤ 2 then some "boom" else none) 2 5 =
        (1, []) ∧
      (5 : ℚ) * 1 < 5 * 2 := by
  obtain ⟨hso, hsm, hlt⟩ :=
    c2_retry_and_failure_handling.2.2.2.2 5 (fun a => if a ≤ 2 then some "boom" else none)
      "boom" "boom" [("email", "a@b")] (by decide) (by decide) (by decide)
  exact ⟨hso, hsm, hlt (by norm_num)⟩

/-- The failure list and success count of `sendMessagesAux` partition the
recipient list: every recipient contributes to exactly one side. -/
theorem sendMessagesAux_partition (deliver : Nat → Nat → Option String) (retries : Nat)
    (delay : ℚ) :
    ∀ (rs : List (List (String × String))) (i : Nat),
      (sendMessagesAux deliver retries delay i rs).1 +
          (sendMessagesAux deliver retries delay i rs).2.length = rs.length ∧
      (sendMessagesAux deliver retries delay i rs).2 =
        (rs.enumFrom i).filterMap (fun p =>
          match (send_one (deliver p.1) retries delay).1 with
          | some reason => some (ctxEmail p.2, reason)
          | none => none) := by
  intro rs
  induction rs with
  | nil => intro i; simp [sendMessagesAux]
  | cons r rs ih =>
    intro i
    obtain ⟨ih1, ih2⟩ := ih (i + 1)
    cases h : (send_one (deliver i) retries delay).1 with
    | none =>
      constructor
      · simp only [sendMessagesAux, h, List.length_cons]
        omega
      · simp only [sendMessagesAux, h, List.enumFrom, List.filterMap_cons]
        simp [h, ih2]
    | some reason =>
      constructor
      · simp only [sendMessagesAux, h, List.length_cons]
        omega
      · simp only [sendMessagesAux, h, List.enumFrom, List.filterMap_cons]
        simp [h, ih2]

/-- C10: the success count plus the number of recorded failure pairs equals
the number of recipients, and the recorded failures are exactly the
recipients whose delivery ultimately raised, each appearing once with its
reason — no recipient is both a success and a failure. -/
theorem c10_send_outcome_accounting (recipients : List (List (String × String)))
    (deliver : Nat → Nat → Option String) (retries : Nat) (delay : ℚ) :
    (send_messages recipients deliver retries delay).1 +
        (send_messages recipients deliver retries delay).2.length = recipients.length ∧
      (send_messages recipients deliver retries delay).2 =
        (recipients.enumFrom 0).filterMap (fun p =>
          match (send_one (deliver p.1) retries delay).1 with
          | some reason => some (ctxEmail p.2, reason)
          | none => none) :=
  sendMessagesAux_partition deliver retries delay recipients 0

example : slugify "Email Perusahaan" = "email_perusahaan" := by decide
example : slugify "Alamat (List)" = "alamat_list" := by decide
example : slugify "  --  " = "" := by decide
example : pyStrip "  a b " = "a b" := by decide
example : rowEmail [("Email Perusahaan", " Foo@Bar.com ")] = "Foo@Bar.com" := by decide

end Outreach
